import Mathlib

/-!
Shallow embedding of the point-cloud streaming and order-independent
transparency core of `lidar-rs` (`src/point_cloud.rs`,
`src/point_cloud/material.rs`, `src/transparency.rs`), together with
theorems settling the specification claims.

Conventions of the embedding:
* `Entity` is `Nat`; the Bevy `EntityHashMap` resources are modelled as
  association lists with first-match lookup.
* `Vec4` point samples and `Affine3` transforms are opaque integer tokens:
  the code under verification never inspects their contents, it only moves
  them around and counts them.
* The third-party `offset_allocator` crate is external to the repository;
  it is modelled from the specification's arena contract (free-list of
  `(offset, length)` gaps; allocate searches a gap of sufficient size,
  splits it and returns the prefix; free re-inserts and coalesces).
* `PointCloudBuffers::allocate` calls `.expect(..)` on the allocator's
  result, so the embedding returns `Except String _` where `.error`
  denotes the Rust panic.
-/

abbrev Entity := Nat

/-- Opaque token for a `Vec4` point sample. -/
abbrev Vec4 := Int

/-- Opaque token for an `Affine3` transform. -/
abbrev Affine3 := Int

/-! ### Association-list maps keyed by `Entity`

Model of Bevy's `EntityHashMap` as used by `PointCloudInstances` and the
transparent-phase map (`ViewBinnedRenderPhases`). -/

/-- First-match lookup in an association list (`EntityHashMap::get`). -/
def findEnt {α : Type} : List (Entity × α) → Entity → Option α
  | [], _ => none
  | (k, v) :: rest, e => if k = e then some v else findEnt rest e

/-- Update the value stored at a key in place (`EntityHashMap::get_mut`
followed by field writes): the first entry with the key is rewritten,
everything else is untouched. -/
def updateEnt {α : Type} : List (Entity × α) → Entity → (α → α) →
    List (Entity × α)
  | [], _, _ => []
  | (k, v) :: rest, e, f =>
    if k = e then (k, f v) :: rest else (k, v) :: updateEnt rest e f

/-- Remove every entry with the given key (`EntityHashMap::remove`). -/
def removeEnt {α : Type} : List (Entity × α) → Entity → List (Entity × α)
  | [], _ => []
  | (k, v) :: rest, e =>
    if k = e then removeEnt rest e else (k, v) :: removeEnt rest e

/-- Keep only the entries whose key satisfies the predicate
(`EntityHashMap::retain` where the closure only reads the key). -/
def retainEnt {α : Type} (m : List (Entity × α)) (p : Entity → Bool) :
    List (Entity × α) :=
  m.filter fun q => p q.1

/-! ### Arena allocator

Modelled from the spec: the repository depends on the external
`offset_allocator` crate, whose source is not part of this repository.
The spec's arena contract (§3 Arena, §4.1 Point Arena) describes it as a
free-list of `(offset, length)` gaps: `allocate n` searches for a gap of
at least `n`, splits it, returns the prefix and re-inserts any remainder;
`free` re-inserts the freed range and coalesces adjacent free ranges. -/

/-- An arena allocation: a contiguous `(offset, length)` range. -/
structure Allocation where
  offset : Nat
  length : Nat
deriving Repr, DecidableEq

/-- Modelled from the spec: the external `offset_allocator::Allocator`,
as a free list of `(offset, length)` gaps kept sorted by offset. -/
structure Allocator where
  capacity : Nat
  freeList : List (Nat × Nat)
deriving Repr, DecidableEq

/-- A fresh allocator over `capacity` units: one gap covering everything
(`Allocator::new(capacity)`). -/
def Allocator.new (capacity : Nat) : Allocator :=
  { capacity := capacity, freeList := [(0, capacity)] }

/-- Split the first gap of length at least `n` out of the free list,
returning the chosen gap's offset and the remaining free list. -/
def splitGap : List (Nat × Nat) → Nat → Option (Nat × List (Nat × Nat))
  | [], _ => none
  | (o, l) :: rest, n =>
    if n ≤ l then
      some (o, if l = n then rest else (o + n, l - n) :: rest)
    else
      (splitGap rest n).map fun (o', rest') => (o', (o, l) :: rest')

/-- Modelled from the spec: `Allocator::allocate(n)` — find a gap of at
least `n`, return its prefix as the allocation, keep the remainder free.
Returns `none` when no gap is large enough (allocation exhaustion). -/
def Allocator.allocate (a : Allocator) (n : Nat) :
    Option (Allocation × Allocator) :=
  (splitGap a.freeList n).map fun (o, rest) =>
    (⟨o, n⟩, { a with freeList := rest })

/-- Insert a gap into a free list sorted by offset. -/
def insertGap (g : Nat × Nat) : List (Nat × Nat) → List (Nat × Nat)
  | [] => [g]
  | hd :: tl => if g.1 ≤ hd.1 then g :: hd :: tl else hd :: insertGap g tl

/-- Coalesce adjacent gaps in an offset-sorted free list. -/
def coalesceGaps : List (Nat × Nat) → List (Nat × Nat)
  | [] => []
  | (o, l) :: rest =>
    match coalesceGaps rest with
    | [] => [(o, l)]
    | (o', l') :: rest' =>
      if o + l = o' then (o, l + l') :: rest' else (o, l) :: (o', l') :: rest'

/-- Modelled from the spec: `Allocator::free` — re-insert the freed range
and coalesce with adjacent free ranges. -/
def Allocator.free (a : Allocator) (alloc : Allocation) : Allocator :=
  { a with
    freeList := coalesceGaps (insertGap (alloc.offset, alloc.length) a.freeList) }

/-- A range is entirely free when some gap of the free list contains it. -/
def Allocator.rangeFree (a : Allocator) (offset length : Nat) : Bool :=
  a.freeList.any fun (o, l) => o ≤ offset ∧ offset + length ≤ o + l

/-! ### GPU point buffer (`PointCloudBuffers`)

`src/point_cloud.rs` lines 49-97: a GPU buffer of `Vec4` samples plus the
arena allocator. The GPU buffer contents are modelled as a `List Vec4`;
`RenderQueue::write_buffer` becomes an in-place splice at the allocation
offset. `PointCloudBuffers::allocate` calls
`.expect("failed to allocate point buffer")` on the allocator's result,
so the embedding returns `Except String _` with `.error` standing for the
Rust panic. -/

structure PointCloudBuffers where
  pointBuffer : List Vec4
  allocator : Allocator
deriving Repr, DecidableEq

/-- `RenderQueue::write_buffer`: one bulk transfer of `points` into the
buffer starting at `offset`. -/
def writeBuffer (buf : List Vec4) (offset : Nat) (points : List Vec4) :
    List Vec4 :=
  buf.take offset ++ points ++ buf.drop (offset + points.length)

/-- `PointCloudBuffers::with_capacity`. -/
def PointCloudBuffers.withCapacity (capacity : Nat) : PointCloudBuffers :=
  { pointBuffer := List.replicate capacity 0
    allocator := Allocator.new capacity }

/-- `PointCloudBuffers::new`: 16 Mi points. -/
def PointCloudBuffers.mkDefault : PointCloudBuffers :=
  PointCloudBuffers.withCapacity (1024 * 1024 * 16)

/-- `PointCloudBuffers::allocate`: allocate for `points.len()` samples and
write the samples at the allocation's offset; a failed allocator request
panics (`.error`). -/
def PointCloudBuffers.allocate (b : PointCloudBuffers) (points : List Vec4) :
    Except String (Allocation × PointCloudBuffers) :=
  match b.allocator.allocate points.length with
  | none => .error "failed to allocate point buffer"
  | some (alloc, allocator) =>
    .ok (alloc,
      { pointBuffer := writeBuffer b.pointBuffer alloc.offset points
        allocator := allocator })

/-- `PointCloudBuffers::free`. -/
def PointCloudBuffers.free (b : PointCloudBuffers) (alloc : Allocation) :
    PointCloudBuffers :=
  { b with allocator := b.allocator.free alloc }

/-! ### Instance registry (`PointCloudInstances`) and the extract stage -/

/-- `PointCloudInstance` (`src/point_cloud.rs` lines 36-41). -/
structure PointCloudInstance where
  world_from_local : Affine3
  previous_world_from_local : Affine3
  num_points : Nat
  allocation : Option Allocation
deriving Repr, DecidableEq

/-- The `PointCloudInstances` resource. -/
abbrev Registry := List (Entity × PointCloudInstance)

/-- The `PendingPointClouds` resource: queued `(entity, points)` uploads. -/
abbrev Pending := List (Entity × List Vec4)

/-- One row of the extract query over point-cloud entities:
`(Entity, &ViewVisibility, &GlobalTransform, Option<&PreviousGlobalTransform>,
Ref<PointCloud>)`. `changed` is Bevy's change detection on the
`PointCloud` component (`Ref::is_changed`). -/
structure ExtractedCloud where
  entity : Entity
  viewVisibility : Bool
  transform : Affine3
  previousTransform : Option Affine3
  points : List Vec4
  changed : Bool
deriving Repr, DecidableEq

/-- The body of the per-entity loop of `extract_point_clouds`
(`src/point_cloud.rs` lines 119-147). -/
def extractStep (st : Registry × Pending) (c : ExtractedCloud) :
    Registry × Pending :=
  if !c.viewVisibility then
    (removeEnt st.1 c.entity, st.2)
  else
    let transform := c.transform
    let previousTransform := c.previousTransform.getD transform
    match findEnt st.1 c.entity with
    | some _ =>
      let reg := updateEnt st.1 c.entity fun existing =>
        { existing with
            world_from_local := transform
            previous_world_from_local := previousTransform
            num_points := c.points.length }
      if c.changed then (reg, st.2 ++ [(c.entity, c.points)]) else (reg, st.2)
    | none =>
      ((c.entity,
        { world_from_local := transform
          previous_world_from_local := previousTransform
          num_points := c.points.length
          allocation := none }) :: st.1,
       st.2 ++ [(c.entity, c.points)])

/-- `extract_point_clouds` (`src/point_cloud.rs` lines 105-148): retain
only registry entries whose entity still exists in the query, then fold
the per-entity loop over the query rows. -/
def extractPointClouds (query : List ExtractedCloud) (registry : Registry)
    (pending : Pending) : Registry × Pending :=
  query.foldl extractStep
    (retainEnt registry (fun e => query.any fun c => c.entity == e), pending)

/-! ### Upload stage (`upload_point_clouds`) -/

/-- Free a record's previous allocation when it has one
(`if let Some(allocation) = point_cloud.allocation.take() { free }`); the
`take` itself is unobservable because the caller immediately overwrites
the field with the new allocation. -/
def freeOld (bufs : PointCloudBuffers) (inst : PointCloudInstance) :
    PointCloudBuffers :=
  match inst.allocation with
  | some alloc => bufs.free alloc
  | none => bufs

/-- `upload_point_clouds` (`src/point_cloud.rs` lines 150-168): drain the
pending queue; entities no longer in the registry are skipped; otherwise
free the old allocation if present, then allocate for the new points
(panicking — `.error` — on exhaustion) and record the new allocation. -/
def uploadPointClouds :
    Pending → Registry → PointCloudBuffers →
    Except String (Registry × PointCloudBuffers)
  | [], reg, bufs => .ok (reg, bufs)
  | (e, points) :: rest, reg, bufs =>
    match findEnt reg e with
    | none => uploadPointClouds rest reg bufs
    | some inst =>
      match (freeOld bufs inst).allocate points with
      | .error msg => .error msg
      | .ok (alloc, bufs2) =>
        uploadPointClouds rest
          (updateEnt reg e fun i => { i with allocation := some alloc }) bufs2

/-! ### Queue stage (batch assembly)

`queue_point_clouds` (`src/point_cloud.rs` lines 170-205) and
`queue_material_point_clouds` (`src/point_cloud/material.rs` lines
273-321). Within one run every `add` uses the same bin key (the same
specialized pipeline id and draw function), so a view's phase is modelled
as the list of entities added to it this frame. -/

abbrev Phase := List Entity

/-- `queue_point_clouds`: for every view that has a transparent phase, add
every entity of the instance registry to that phase. -/
def queuePointClouds (views : List Entity) (phases : List (Entity × Phase))
    (instances : Registry) : List (Entity × Phase) :=
  views.foldl
    (fun ph v =>
      match findEnt ph v with
      | none => ph
      | some _ =>
        updateEnt ph v fun phase =>
          instances.foldl (fun p pr => p ++ [pr.1]) phase)
    phases

/-- `queue_material_point_clouds`: as `queuePointClouds`, but an entity is
added only when it has an extracted material instance whose asset is
among the prepared material assets. -/
def queueMaterialPointClouds (views : List Entity)
    (phases : List (Entity × Phase)) (instances : Registry)
    (materialInstances : List (Entity × Nat)) (preparedMaterials : List Nat) :
    List (Entity × Phase) :=
  views.foldl
    (fun ph v =>
      match findEnt ph v with
      | none => ph
      | some _ =>
        updateEnt ph v fun phase =>
          instances.foldl
            (fun p pr =>
              match findEnt materialInstances pr.1 with
              | none => p
              | some mid =>
                if preparedMaterials.contains mid then p ++ [pr.1] else p)
            phase)
    phases

/-! ### Indirect draw buffer (`PointCloudIndirect`) -/

/-- `DrawIndirect` (`src/point_cloud.rs` lines 626-633). -/
structure DrawIndirect where
  vertex_count : Nat
  instance_count : Nat
  first_vertex : Nat
  first_instance : Nat
deriving Repr, DecidableEq

/-- `PointCloudIndirect::push` (`src/point_cloud.rs` lines 644-654):
append a descriptor drawing `num_points * 6` vertices of one instance,
with `first_instance` equal to the number of descriptors already pushed. -/
def pushIndirect (buf : List DrawIndirect) (inst : PointCloudInstance) :
    List DrawIndirect :=
  buf ++ [{ vertex_count := inst.num_points * 6
            instance_count := 1
            first_vertex := 0
            first_instance := buf.length }]

/-- The sequence of `push` calls made by `get_batch_data` over the
instances emitted this frame, starting from the cleared buffer. -/
def pushAllIndirect (instances : List PointCloudInstance) :
    List DrawIndirect :=
  instances.foldl pushIndirect []

/-! ### Blend configuration of the accumulate pipeline

`PointCloudPipeline::specialize` (`src/point_cloud.rs` lines 327-395)
builds two colour targets: the accumulation colour target
(`Rgba16Float`, blend `blend_add`) and the coverage target (`R16Float`,
blend `blend_dissolve`). Blend factors and the `Add` operation follow the
wgpu blending semantics `operation(src * src_factor, dst * dst_factor)`,
expressed over `ℚ` (the claims are about the symbolic blend algebra, not
about floating-point rounding). -/

inductive BlendFactorM where
  | zero
  | one
  | srcAlpha
  | oneMinusSrcAlpha
deriving Repr, DecidableEq

inductive BlendOperationM where
  | add
deriving Repr, DecidableEq

structure BlendComponentM where
  src_factor : BlendFactorM
  dst_factor : BlendFactorM
  operation : BlendOperationM
deriving Repr, DecidableEq

/-- Value of a blend factor given the source value, destination value and
source alpha. -/
def BlendFactorM.eval : BlendFactorM → ℚ → ℚ → ℚ → ℚ
  | .zero, _, _, _ => 0
  | .one, _, _, _ => 1
  | .srcAlpha, _, _, a => a
  | .oneMinusSrcAlpha, _, _, a => 1 - a

/-- wgpu blend semantics for one component: the new destination value. -/
def BlendComponentM.eval (b : BlendComponentM) (src dst srcAlpha : ℚ) : ℚ :=
  match b.operation with
  | .add =>
    src * b.src_factor.eval src dst srcAlpha +
      dst * b.dst_factor.eval src dst srcAlpha

/-- `blend_add` in `PointCloudPipeline::specialize`. -/
def blend_add : BlendComponentM :=
  { src_factor := .one, dst_factor := .one, operation := .add }

/-- `blend_dissolve` in `PointCloudPipeline::specialize`. -/
def blend_dissolve : BlendComponentM :=
  { src_factor := .zero, dst_factor := .oneMinusSrcAlpha, operation := .add }

inductive TextureFormatM where
  | rgba16Float
  | r16Float
  | rgba8UnormSrgb
deriving Repr, DecidableEq

structure ColorTargetStateM where
  format : TextureFormatM
  color : BlendComponentM
  alpha : BlendComponentM
deriving Repr, DecidableEq

/-- The fragment colour targets produced by
`PointCloudPipeline::specialize`: accumulation colour first, coverage
second. -/
def pointCloudPipelineTargets : List ColorTargetStateM :=
  [ { format := .rgba16Float, color := blend_add, alpha := blend_add },
    { format := .r16Float, color := blend_dissolve, alpha := blend_dissolve } ]

/-- An RGBA colour with rational components. -/
structure LinearRgbaM where
  red : ℚ
  green : ℚ
  blue : ℚ
  alpha : ℚ
deriving Repr, DecidableEq

/-- `LinearRgba::NONE`. -/
def LinearRgbaM.NONE : LinearRgbaM := ⟨0, 0, 0, 0⟩

/-- `LinearRgba::WHITE`. -/
def LinearRgbaM.WHITE : LinearRgbaM := ⟨1, 1, 1, 1⟩

/-- The clear colours a `ColorAttachment` applies on its first use in a
frame. -/
structure AccumulationAttachments where
  colorClear : Option LinearRgbaM
  alphaClear : Option LinearRgbaM
deriving Repr, DecidableEq

/-- `prepare_transparent_accumulation_texture` (`src/transparency.rs`
lines 138-191, duplicated in `src/point_cloud.rs` lines 662-715): the
colour accumulation attachment clears to `LinearRgba::NONE`, the coverage
attachment clears to `LinearRgba::WHITE`. -/
def prepareTransparentAccumulationTexture : AccumulationAttachments :=
  { colorClear := some LinearRgbaM.NONE
    alphaClear := some LinearRgbaM.WHITE }

/-! ### The OIT compositor node

`OrderIndependentCopyNode::run` (`src/transparency.rs` lines 277-352,
duplicated in `src/point_cloud.rs` lines 801-876). Per-view GPU state is
abstracted to one representative texel per surface. When the view's
transparent phase is non-empty the node begins the accumulate pass (whose
attachments clear the colour surface to 0 and the coverage surface to 1,
then the phase's draws run — an opaque function, since shader programs
are external) and then the resolve pass over the final target (again an
opaque function of the two accumulation surfaces). When the phase is
empty the node does nothing at all. -/

structure OitViewState where
  colourSurface : Int
  alphaSurface : Int
  finalTarget : Int
deriving Repr, DecidableEq

/-- `OrderIndependentCopyNode::run`, parameterized by the external draw
semantics: `accumulateDraws` maps the cleared `(colour, coverage)` pair to
the surfaces after the phase renders; `resolveDraw` maps the accumulation
surfaces and the old final target to the new final target. -/
def orderIndependentCopyNodeRun
    (accumulateDraws : Int × Int → Int × Int)
    (resolveDraw : Int → Int → Int → Int)
    (phase : List Entity) (st : OitViewState) : OitViewState :=
  if phase.isEmpty then
    st
  else
    let cleared : Int × Int := (0, 1)
    let acc := accumulateDraws cleared
    { colourSurface := acc.1
      alphaSurface := acc.2
      finalTarget := resolveDraw acc.1 acc.2 st.finalTarget }

/-! ### Derived frame-level definitions -/

/-- The reconcile pass over the render-world resources.
`extract_point_clouds` declares only `PointCloudInstances` and
`PendingPointClouds` among its system parameters; the `PointCloudBuffers`
resource (arena allocator plus GPU point buffer) is not accessible to it
and passes through the pass untouched. -/
def reconcilePass (query : List ExtractedCloud) (registry : Registry)
    (pending : Pending) (bufs : PointCloudBuffers) :
    Registry × Pending × PointCloudBuffers :=
  let rp := extractPointClouds query registry pending
  (rp.1, rp.2, bufs)

/-- The indirect descriptors produced for a run of instances whose first
descriptor lands at buffer index `k` (closed form of repeated
`pushIndirect`). -/
def mkIndirectFrom (k : Nat) : List PointCloudInstance → List DrawIndirect
  | [] => []
  | inst :: rest =>
    { vertex_count := inst.num_points * 6
      instance_count := 1
      first_vertex := 0
      first_instance := k } :: mkIndirectFrom (k + 1) rest

/-- The per-view body shared by the two queue systems: look up the view's
transparent phase; when the view has no phase it is skipped, otherwise the
phase is extended by `f`. -/
def queueViewStep (f : Phase → Phase) (ph : List (Entity × Phase))
    (v : Entity) : List (Entity × Phase) :=
  match findEnt ph v with
  | none => ph
  | some _ => updateEnt ph v f

/-- Every pending upload's point list agrees in count with the registry
record of its entity — the extract stage establishes this because it sets
`num_points` from the same `points` sequence it queues. -/
def PendCountOk (pend : Pending) (reg : Registry) : Prop :=
  ∀ e pts inst, (e, pts) ∈ pend → findEnt reg e = some inst →
    inst.num_points = pts.length

/-- Every allocation-bearing record either already satisfies
`allocation.length = num_points` or has an upload still pending for its
entity. -/
def AllocSyncOk (pend : Pending) (reg : Registry) : Prop :=
  ∀ e inst a, findEnt reg e = some inst → inst.allocation = some a →
    a.length = inst.num_points ∨ ∃ pts, (e, pts) ∈ pend

/-! ## Supporting lemmas -/

theorem findEnt_updateEnt_self {α : Type} (m : List (Entity × α)) (e : Entity)
    (f : α → α) : findEnt (updateEnt m e f) e = (findEnt m e).map f := by
  induction m with
  | nil => rfl
  | cons hd tl ih =>
    obtain ⟨k, v⟩ := hd
    by_cases h : k = e
    · subst h
      simp [updateEnt, findEnt]
    · simp [updateEnt, findEnt, h, ih]

theorem findEnt_updateEnt_ne {α : Type} (m : List (Entity × α)) (e e' : Entity)
    (f : α → α) (h : e ≠ e') :
    findEnt (updateEnt m e f) e' = findEnt m e' := by
  induction m with
  | nil => rfl
  | cons hd tl ih =>
    obtain ⟨k, v⟩ := hd
    by_cases hh : k = e
    · subst hh
      simp [updateEnt, findEnt, h, Ne.symm h]
    · by_cases hh' : k = e'
      · subst hh'
        simp [updateEnt, findEnt, hh, Ne.symm h]
      · simp [updateEnt, findEnt, hh, hh', ih]

theorem findEnt_retainEnt {α : Type} (m : List (Entity × α)) (p : Entity → Bool)
    (e : Entity) (hp : p e = true) : findEnt (retainEnt m p) e = findEnt m e := by
  induction m with
  | nil => rfl
  | cons hd tl ih =>
    obtain ⟨k, v⟩ := hd
    by_cases hh : k = e
    · subst hh
      simp [retainEnt, findEnt, hp]
    · by_cases hq : p k = true
      · simp only [retainEnt, List.filter_cons] at ih ⊢
        simp [findEnt, hh, hq, ih]
      · simp only [retainEnt, List.filter_cons] at ih ⊢
        simp [findEnt, hh, hq, ih]

theorem Allocator.allocate_length (a : Allocator) (n : Nat)
    (alloc : Allocation) (a' : Allocator)
    (h : a.allocate n = some (alloc, a')) : alloc.length = n := by
  unfold Allocator.allocate at h
  cases hs : splitGap a.freeList n with
  | none => simp [hs] at h
  | some p =>
    simp [hs] at h
    cases h.1
    rfl

theorem insertGap_ne_nil (g : Nat × Nat) (l : List (Nat × Nat)) :
    insertGap g l ≠ [] := by
  cases l with
  | nil => simp [insertGap]
  | cons hd tl =>
    unfold insertGap
    by_cases h : g.1 ≤ hd.1 <;> simp [h]

theorem coalesceGaps_ne_nil (l : List (Nat × Nat)) (h : l ≠ []) :
    coalesceGaps l ≠ [] := by
  cases l with
  | nil => exact absurd rfl h
  | cons hd tl =>
    unfold coalesceGaps
    cases hc : coalesceGaps tl with
    | nil => simp
    | cons hd' tl' =>
      by_cases he : hd.1 + hd.2 = hd'.1 <;> simp [he]

theorem findEnt_retainEnt_of_neg {α : Type} (m : List (Entity × α))
    (p : Entity → Bool) (e : Entity) (hp : p e = false) :
    findEnt (retainEnt m p) e = none := by
  induction m with
  | nil => rfl
  | cons hd tl ih =>
    obtain ⟨k, v⟩ := hd
    by_cases hk : k = e
    · subst hk
      simp only [retainEnt, List.filter_cons] at ih ⊢
      simp [hp, ih]
    · by_cases hq : p k = true
      · simp only [retainEnt, List.filter_cons] at ih ⊢
        simp [findEnt, hk, hq, ih]
      · simp only [retainEnt, List.filter_cons] at ih ⊢
        simp [findEnt, hk, hq, ih]

theorem findEnt_retainEnt_some {α : Type} (m : List (Entity × α))
    (p : Entity → Bool) (e : Entity) (v : α)
    (h : findEnt (retainEnt m p) e = some v) : findEnt m e = some v := by
  by_cases hp : p e = true
  · rw [findEnt_retainEnt m p e hp] at h
    exact h
  · rw [findEnt_retainEnt_of_neg m p e (by simpa using hp)] at h
    exact absurd h (by simp)

theorem findEnt_removeEnt_self {α : Type} (m : List (Entity × α)) (e : Entity) :
    findEnt (removeEnt m e) e = none := by
  induction m with
  | nil => rfl
  | cons hd tl ih =>
    obtain ⟨k, v⟩ := hd
    by_cases hk : k = e
    · simp [removeEnt, hk, ih]
    · simp [removeEnt, findEnt, hk, ih]

theorem findEnt_removeEnt_ne {α : Type} (m : List (Entity × α)) (e e' : Entity)
    (h : e ≠ e') : findEnt (removeEnt m e) e' = findEnt m e' := by
  induction m with
  | nil => rfl
  | cons hd tl ih =>
    obtain ⟨k, v⟩ := hd
    by_cases hq : k = e
    · subst hq
      simp [removeEnt, findEnt, h, ih]
    · by_cases hk : k = e'
      · subst hk
        simp [removeEnt, findEnt, hq]
      · simp [removeEnt, findEnt, hq, hk, ih]

theorem findEnt_removeEnt_some {α : Type} (m : List (Entity × α))
    (e e' : Entity) (v : α) (h : findEnt (removeEnt m e) e' = some v) :
    findEnt m e' = some v := by
  by_cases hk : e = e'
  · subst hk
    rw [findEnt_removeEnt_self] at h
    exact absurd h (by simp)
  · rwa [findEnt_removeEnt_ne m e e' hk] at h

theorem extractStep_findEnt_ne (st : Registry × Pending) (c : ExtractedCloud)
    (e : Entity) (h : c.entity ≠ e) :
    findEnt (extractStep st c).1 e = findEnt st.1 e := by
  unfold extractStep
  by_cases hv : c.viewVisibility
  · cases hf : findEnt st.1 c.entity with
    | none => simp [hv, hf, findEnt, h]
    | some inst =>
      by_cases hc : c.changed <;>
        simp [hv, hf, hc, findEnt_updateEnt_ne _ _ _ _ h]
  · simp only [Bool.not_eq_true] at hv
    simp [hv, findEnt_removeEnt_ne _ _ _ h]

theorem extractStep_findEnt_some (st : Registry × Pending) (c : ExtractedCloud)
    (e : Entity) (v : PointCloudInstance)
    (h : findEnt (extractStep st c).1 e = some v) :
    findEnt st.1 e = some v ∨ e = c.entity := by
  by_cases he : c.entity = e
  · exact Or.inr he.symm
  · rw [extractStep_findEnt_ne st c e he] at h
    exact Or.inl h

theorem extractStep_pending_mono (st : Registry × Pending)
    (c : ExtractedCloud) : ∃ t, (extractStep st c).2 = st.2 ++ t := by
  unfold extractStep
  by_cases hv : c.viewVisibility
  · cases hf : findEnt st.1 c.entity with
    | none => exact ⟨[(c.entity, c.points)], by simp [hv, hf]⟩
    | some inst =>
      by_cases hc : c.changed
      · exact ⟨[(c.entity, c.points)], by simp [hv, hf, hc]⟩
      · exact ⟨[], by simp [hv, hf, hc]⟩
  · simp only [Bool.not_eq_true] at hv
    exact ⟨[], by simp [hv]⟩

theorem extract_foldl_findEnt_ne (l : List ExtractedCloud)
    (st : Registry × Pending) (e : Entity)
    (h : ∀ c ∈ l, c.entity ≠ e) :
    findEnt (l.foldl extractStep st).1 e = findEnt st.1 e := by
  induction l generalizing st with
  | nil => rfl
  | cons hd tl ih =>
    rw [List.foldl_cons, ih _ (fun c hc => h c (List.mem_cons_of_mem hd hc)),
      extractStep_findEnt_ne st hd e (h hd (List.mem_cons_self hd tl))]

theorem extract_foldl_pending_mono (l : List ExtractedCloud)
    (st : Registry × Pending) :
    ∃ t, (l.foldl extractStep st).2 = st.2 ++ t := by
  induction l generalizing st with
  | nil => exact ⟨[], by simp⟩
  | cons hd tl ih =>
    obtain ⟨t₁, ht₁⟩ := extractStep_pending_mono st hd
    obtain ⟨t₂, ht₂⟩ := ih (extractStep st hd)
    exact ⟨t₁ ++ t₂, by rw [List.foldl_cons, ht₂, ht₁, List.append_assoc]⟩

theorem queuePointClouds_eq_foldl (views : List Entity)
    (phases : List (Entity × Phase)) (instances : Registry) :
    queuePointClouds views phases instances =
      views.foldl
        (queueViewStep fun phase =>
          instances.foldl (fun p pr => p ++ [pr.1]) phase)
        phases := rfl

theorem queueMaterialPointClouds_eq_foldl (views : List Entity)
    (phases : List (Entity × Phase)) (instances : Registry)
    (materialInstances : List (Entity × Nat)) (preparedMaterials : List Nat) :
    queueMaterialPointClouds views phases instances materialInstances
        preparedMaterials =
      views.foldl
        (queueViewStep fun phase =>
          instances.foldl
            (fun p pr =>
              match findEnt materialInstances pr.1 with
              | none => p
              | some mid =>
                if preparedMaterials.contains mid then p ++ [pr.1] else p)
            phase)
        phases := rfl

theorem queueViewStep_findEnt_ne (f : Phase → Phase)
    (ph : List (Entity × Phase)) (v e : Entity) (h : v ≠ e) :
    findEnt (queueViewStep f ph v) e = findEnt ph e := by
  unfold queueViewStep
  cases hf : findEnt ph v with
  | none => rfl
  | some p => exact findEnt_updateEnt_ne _ _ _ _ h

theorem queueFold_findEnt_ne (f : Phase → Phase) (views : List Entity)
    (ph : List (Entity × Phase)) (e : Entity) (h : ∀ v ∈ views, v ≠ e) :
    findEnt (views.foldl (queueViewStep f) ph) e = findEnt ph e := by
  induction views generalizing ph with
  | nil => rfl
  | cons hd tl ih =>
    rw [List.foldl_cons, ih _ (fun v hv => h v (List.mem_cons_of_mem hd hv)),
      queueViewStep_findEnt_ne f ph hd e (h hd (List.mem_cons_self hd tl))]

theorem foldl_append_keys (instances : Registry) (phase : Phase) :
    instances.foldl (fun p pr => p ++ [pr.1]) phase =
      phase ++ instances.map Prod.fst := by
  induction instances generalizing phase with
  | nil => simp
  | cons hd tl ih => simp [ih, List.append_assoc]

theorem foldl_material_keys (instances : Registry)
    (materialInstances : List (Entity × Nat)) (preparedMaterials : List Nat)
    (phase : Phase) :
    instances.foldl
      (fun p pr =>
        match findEnt materialInstances pr.1 with
        | none => p
        | some mid =>
          if preparedMaterials.contains mid then p ++ [pr.1] else p)
      phase =
      phase ++ instances.filterMap fun pr =>
        match findEnt materialInstances pr.1 with
        | none => none
        | some mid =>
          if preparedMaterials.contains mid then some pr.1 else none := by
  induction instances generalizing phase with
  | nil => simp
  | cons hd tl ih =>
    rw [List.foldl_cons, List.filterMap_cons]
    cases hm : findEnt materialInstances hd.1 with
    | none =>
      simp only [hm]
      exact ih phase
    | some mid =>
      simp only [hm]
      by_cases hp : preparedMaterials.contains mid
      · rw [if_pos hp, if_pos hp, ih (phase ++ [hd.1]), List.append_assoc]
        rfl
      · rw [if_neg hp, if_neg hp]
        exact ih phase

theorem foldl_pushIndirect (instances : List PointCloudInstance)
    (acc : List DrawIndirect) :
    instances.foldl pushIndirect acc =
      acc ++ mkIndirectFrom acc.length instances := by
  induction instances generalizing acc with
  | nil => simp [mkIndirectFrom]
  | cons hd tl ih =>
    rw [List.foldl_cons, ih]
    simp [pushIndirect, mkIndirectFrom, List.append_assoc]

theorem mkIndirectFrom_getElem (instances : List PointCloudInstance)
    (k i : Nat) :
    (mkIndirectFrom k instances)[i]? =
      (instances[i]?).map fun inst =>
        { vertex_count := inst.num_points * 6
          instance_count := 1
          first_vertex := 0
          first_instance := k + i } := by
  induction instances generalizing k i with
  | nil => simp [mkIndirectFrom]
  | cons hd tl ih =>
    cases i with
    | zero => simp [mkIndirectFrom]
    | succ j =>
      simp only [mkIndirectFrom, List.getElem?_cons_succ, ih (k + 1) j]
      have : k + (j + 1) = k + 1 + j := by omega
      rw [this]

theorem splitGap_zero (l : List (Nat × Nat)) (h : l ≠ []) :
    ∃ o rest, splitGap l 0 = some (o, rest) := by
  cases l with
  | nil => exact absurd rfl h
  | cons hd tl =>
    obtain ⟨o, g⟩ := hd
    by_cases hg : g = 0
    · exact ⟨o, tl, by simp [splitGap, hg]⟩
    · exact ⟨o, (o, g) :: tl, by simp [splitGap, hg]⟩

theorem PointCloudBuffers.allocate_spec (b : PointCloudBuffers)
    (points : List Vec4) (alloc : Allocation) (b' : PointCloudBuffers)
    (h : b.allocate points = .ok (alloc, b')) :
    alloc.length = points.length ∧
      b'.pointBuffer = writeBuffer b.pointBuffer alloc.offset points := by
  unfold PointCloudBuffers.allocate at h
  cases ha : b.allocator.allocate points.length with
  | none =>
    rw [ha] at h
    exact absurd h (by simp)
  | some p =>
    obtain ⟨al, a'⟩ := p
    rw [ha] at h
    simp only [Except.ok.injEq, Prod.mk.injEq] at h
    obtain ⟨h1, h2⟩ := h
    subst h1
    subst h2
    exact ⟨Allocator.allocate_length _ _ _ _ ha, rfl⟩

theorem PointCloudBuffers.allocate_nil (b : PointCloudBuffers)
    (hfree : b.allocator.freeList ≠ []) :
    ∃ alloc b', b.allocate ([] : List Vec4) = .ok (alloc, b') ∧
      alloc.length = 0 := by
  obtain ⟨o, rest, hs⟩ := splitGap_zero b.allocator.freeList hfree
  refine ⟨⟨o, 0⟩,
    { pointBuffer := writeBuffer b.pointBuffer o []
      allocator := { b.allocator with freeList := rest } }, ?_, rfl⟩
  simp [PointCloudBuffers.allocate, Allocator.allocate, hs]

theorem uploadPointClouds_findEnt_of_not_mem (pend : Pending) (reg : Registry)
    (bufs : PointCloudBuffers) (regF : Registry) (bufsF : PointCloudBuffers)
    (e : Entity)
    (hok : uploadPointClouds pend reg bufs = .ok (regF, bufsF))
    (h : ∀ p ∈ pend, p.1 ≠ e) :
    findEnt regF e = findEnt reg e := by
  induction pend generalizing reg bufs with
  | nil =>
    simp only [uploadPointClouds, Except.ok.injEq, Prod.mk.injEq] at hok
    rw [← hok.1]
  | cons hd rest ih =>
    obtain ⟨e', pts⟩ := hd
    have he' : e' ≠ e := h (e', pts) (List.mem_cons_self _ _)
    simp only [uploadPointClouds] at hok
    cases hf : findEnt reg e' with
    | none =>
      simp only [hf] at hok
      exact ih reg bufs hok fun p hp => h p (List.mem_cons_of_mem _ hp)
    | some inst =>
      simp only [hf] at hok
      cases hal : (freeOld bufs inst).allocate pts with
      | error msg =>
        simp only [hal] at hok
        exact absurd hok (by simp)
      | ok pr =>
        obtain ⟨alloc, bufs2⟩ := pr
        simp only [hal] at hok
        rw [ih _ bufs2 hok fun p hp => h p (List.mem_cons_of_mem _ hp),
          findEnt_updateEnt_ne _ _ _ _ he']

theorem uploadPointClouds_alloc_length (pend : Pending) (reg : Registry)
    (bufs : PointCloudBuffers) (regF : Registry) (bufsF : PointCloudBuffers)
    (hok : uploadPointClouds pend reg bufs = .ok (regF, bufsF))
    (hcnt : PendCountOk pend reg) (hsync : AllocSyncOk pend reg) :
    ∀ e inst a, findEnt regF e = some inst → inst.allocation = some a →
      a.length = inst.num_points := by
  induction pend generalizing reg bufs with
  | nil =>
    simp only [uploadPointClouds, Except.ok.injEq, Prod.mk.injEq] at hok
    obtain ⟨h1, _⟩ := hok
    subst h1
    intro e inst a hf ha
    rcases hsync e inst a hf ha with hl | ⟨pts, hmem⟩
    · exact hl
    · exact absurd hmem (List.not_mem_nil _)
  | cons hd rest ih =>
    obtain ⟨e', pts⟩ := hd
    simp only [uploadPointClouds] at hok
    cases hf : findEnt reg e' with
    | none =>
      simp only [hf] at hok
      refine ih reg bufs hok ?_ ?_
      · intro e pts' inst hmem hfind
        exact hcnt e pts' inst (List.mem_cons_of_mem _ hmem) hfind
      · intro e inst a hfind ha
        rcases hsync e inst a hfind ha with hl | ⟨pts', hmem⟩
        · exact Or.inl hl
        · rcases List.mem_cons.mp hmem with heq | hmem'
          · injection heq with h1 h2
            subst h1
            rw [hfind] at hf
            exact absurd hf (by simp)
          · exact Or.inr ⟨pts', hmem'⟩
    | some inst0 =>
      simp only [hf] at hok
      cases hal : (freeOld bufs inst0).allocate pts with
      | error msg =>
        simp only [hal] at hok
        exact absurd hok (by simp)
      | ok pr =>
        obtain ⟨alloc, bufs2⟩ := pr
        simp only [hal] at hok
        have hlen : alloc.length = pts.length :=
          (PointCloudBuffers.allocate_spec _ _ _ _ hal).1
        have hnum : inst0.num_points = pts.length :=
          hcnt e' pts inst0 (List.mem_cons_self _ _) hf
        refine ih _ bufs2 hok ?_ ?_
        · intro e pts' inst hmem hfind
          by_cases he : e' = e
          · subst he
            rw [findEnt_updateEnt_self, hf] at hfind
            rw [Option.map_some'] at hfind
            injection hfind with hfind
            have := hcnt e' pts' inst0 (List.mem_cons_of_mem _ hmem) hf
            rw [← hfind]
            simpa using this
          · rw [findEnt_updateEnt_ne _ _ _ _ he] at hfind
            exact hcnt e pts' inst (List.mem_cons_of_mem _ hmem) hfind
        · intro e inst a hfind ha
          by_cases he : e' = e
          · subst he
            rw [findEnt_updateEnt_self, hf] at hfind
            rw [Option.map_some'] at hfind
            injection hfind with hfind
            left
            rw [← hfind] at ha ⊢
            have ha' : some alloc = some a := ha
            injection ha' with ha'
            rw [← ha', hlen]
            simpa using hnum.symm
          · rw [findEnt_updateEnt_ne _ _ _ _ he] at hfind
            rcases hsync e inst a hfind ha with hl | ⟨pts', hmem⟩
            · exact Or.inl hl
            · rcases List.mem_cons.mp hmem with heq | hmem'
              · injection heq with h1 h2
                exact absurd h1.symm he
              · exact Or.inr ⟨pts', hmem'⟩

theorem uploadPointClouds_pending_fresh (pend : Pending) (reg : Registry)
    (bufs : PointCloudBuffers) (regF : Registry) (bufsF : PointCloudBuffers)
    (hok : uploadPointClouds pend reg bufs = .ok (regF, bufsF))
    (hnodup : (pend.map Prod.fst).Nodup) :
    ∀ e pts inst, (e, pts) ∈ pend → findEnt reg e = some inst →
      ∃ alloc, findEnt regF e = some { inst with allocation := some alloc } ∧
        alloc.length = pts.length := by
  induction pend generalizing reg bufs with
  | nil =>
    intro e pts inst hmem
    exact absurd hmem (List.not_mem_nil _)
  | cons hd rest ih =>
    obtain ⟨e', pts'⟩ := hd
    simp only [List.map_cons, List.nodup_cons] at hnodup
    obtain ⟨hnotin, hnodup'⟩ := hnodup
    intro e pts inst hmem hfind
    simp only [uploadPointClouds] at hok
    rcases List.mem_cons.mp hmem with heq | hmem'
    · injection heq with h1 h2
      subst h1
      subst h2
      simp only [hfind] at hok
      cases hal : (freeOld bufs inst).allocate pts with
      | error msg =>
        simp only [hal] at hok
        exact absurd hok (by simp)
      | ok pr =>
        obtain ⟨alloc, bufs2⟩ := pr
        simp only [hal] at hok
        refine ⟨alloc, ?_, (PointCloudBuffers.allocate_spec _ _ _ _ hal).1⟩
        have hrest : ∀ p ∈ rest, p.1 ≠ e := by
          intro p hp hpe
          exact hnotin (hpe ▸ List.mem_map_of_mem Prod.fst hp)
        rw [uploadPointClouds_findEnt_of_not_mem rest _ bufs2 regF bufsF e hok
          hrest, findEnt_updateEnt_self, hfind, Option.map_some']
    · have hne : e' ≠ e := by
        intro h
        subst h
        exact hnotin (List.mem_map_of_mem Prod.fst hmem')
      cases hf' : findEnt reg e' with
      | none =>
        simp only [hf'] at hok
        exact ih reg bufs hok hnodup' e pts inst hmem' hfind
      | some inst0 =>
        simp only [hf'] at hok
        cases hal : (freeOld bufs inst0).allocate pts' with
        | error msg =>
          simp only [hal] at hok
          exact absurd hok (by simp)
        | ok pr =>
          obtain ⟨alloc0, bufs2⟩ := pr
          simp only [hal] at hok
          refine ih _ bufs2 hok hnodup' e pts inst hmem' ?_
          rw [findEnt_updateEnt_ne _ _ _ _ hne]
          exact hfind

theorem extract_loop_invariant (registryFull : Registry)
    (rest : List ExtractedCloud) (st : Registry × Pending)
    (hnodup : (rest.map ExtractedCloud.entity).Nodup)
    (hchange : ∀ c ∈ rest, c.changed = false →
      ∀ inst, findEnt registryFull c.entity = some inst →
        inst.num_points = c.points.length)
    (hpre : ∀ e inst a, findEnt registryFull e = some inst →
      inst.allocation = some a → a.length = inst.num_points)
    (horig : ∀ c ∈ rest, findEnt st.1 c.entity = findEnt registryFull c.entity)
    (hdisj : ∀ p ∈ st.2, ∀ c ∈ rest, c.entity ≠ p.1)
    (hpendnd : (st.2.map Prod.fst).Nodup)
    (hcnt : PendCountOk st.2 st.1)
    (hsync : AllocSyncOk st.2 st.1)
    (hlive : ∀ p ∈ st.2, ∃ inst, findEnt st.1 p.1 = some inst) :
    ((rest.foldl extractStep st).2.map Prod.fst).Nodup ∧
      PendCountOk (rest.foldl extractStep st).2
        (rest.foldl extractStep st).1 ∧
      AllocSyncOk (rest.foldl extractStep st).2
        (rest.foldl extractStep st).1 ∧
      ∀ p ∈ (rest.foldl extractStep st).2,
        ∃ inst, findEnt (rest.foldl extractStep st).1 p.1 = some inst := by
  induction rest generalizing st with
  | nil => exact ⟨hpendnd, hcnt, hsync, hlive⟩
  | cons c tl ih =>
    rw [List.foldl_cons]
    simp only [List.map_cons, List.nodup_cons] at hnodup
    obtain ⟨hcnotin, hnodup'⟩ := hnodup
    have htlne : ∀ c' ∈ tl, c'.entity ≠ c.entity := by
      intro c' hc' h
      exact hcnotin (h ▸ List.mem_map_of_mem ExtractedCloud.entity hc')
    have hpendne : ∀ p ∈ st.2, c.entity ≠ p.1 := fun p hp =>
      hdisj p hp c (List.mem_cons_self _ _)
    have horig_c : findEnt st.1 c.entity = findEnt registryFull c.entity :=
      horig c (List.mem_cons_self _ _)
    have hchange' : ∀ c' ∈ tl, c'.changed = false →
        ∀ inst, findEnt registryFull c'.entity = some inst →
          inst.num_points = c'.points.length :=
      fun c' hc' => hchange c' (List.mem_cons_of_mem _ hc')
    by_cases hv : c.viewVisibility = true
    · cases hf : findEnt st.1 c.entity with
      | none =>
        have hstep : extractStep st c =
            ((c.entity,
              { world_from_local := c.transform
                previous_world_from_local := c.previousTransform.getD c.transform
                num_points := c.points.length
                allocation := none }) :: st.1,
             st.2 ++ [(c.entity, c.points)]) := by
          simp [extractStep, hv, hf]
        rw [hstep]
        refine ih _ hnodup' hchange' ?_ ?_ ?_ ?_ ?_ ?_
        · intro c' hc'
          have : c.entity ≠ c'.entity := fun h => htlne c' hc' h.symm
          simp only [findEnt, if_neg this]
          exact horig c' (List.mem_cons_of_mem _ hc')
        · intro p hp c' hc'
          rcases List.mem_append.mp hp with hp' | hp'
          · exact hdisj p hp' c' (List.mem_cons_of_mem _ hc')
          · simp only [List.mem_singleton] at hp'
            subst hp'
            exact htlne c' hc'
        · rw [List.map_append]
          refine List.Nodup.append hpendnd (by simp) ?_
          intro x hx hx'
          simp only [List.map_cons, List.map_nil, List.mem_singleton] at hx'
          subst hx'
          rcases List.mem_map.mp hx with ⟨p, hp, hpe⟩
          exact hpendne p hp hpe.symm
        · intro e pts inst hmem hfind
          rcases List.mem_append.mp hmem with hmem' | hmem'
          · have hne : c.entity ≠ e := hpendne (e, pts) hmem'
            simp only [findEnt, if_neg hne] at hfind
            exact hcnt e pts inst hmem' hfind
          · simp only [List.mem_singleton] at hmem'
            injection hmem' with h1 h2
            subst h1
            subst h2
            simp only [findEnt, if_pos rfl] at hfind
            injection hfind with hfind
            rw [← hfind]
        · intro e inst a hfind ha
          by_cases he : c.entity = e
          · subst he
            simp only [findEnt, if_pos rfl] at hfind
            injection hfind with hfind
            rw [← hfind] at ha
            exact absurd ha (by simp)
          · simp only [findEnt, if_neg he] at hfind
            rcases hsync e inst a hfind ha with hl | ⟨pts', hm⟩
            · exact Or.inl hl
            · exact Or.inr ⟨pts', List.mem_append_left _ hm⟩
        · intro p hp
          rcases List.mem_append.mp hp with hp' | hp'
          · have hne : c.entity ≠ p.1 := hpendne p hp'
            obtain ⟨inst, hinst⟩ := hlive p hp'
            exact ⟨inst, by simp only [findEnt, if_neg hne]; exact hinst⟩
          · simp only [List.mem_singleton] at hp'
            subst hp'
            refine ⟨{ world_from_local := c.transform
                      previous_world_from_local :=
                        c.previousTransform.getD c.transform
                      num_points := c.points.length
                      allocation := none }, ?_⟩
            simp [findEnt]
      | some inst0 =>
        have hregfull : findEnt registryFull c.entity = some inst0 := by
          rw [← horig_c]
          exact hf
        by_cases hch : c.changed = true
        · have hstep : extractStep st c =
              (updateEnt st.1 c.entity fun existing =>
                { existing with
                    world_from_local := c.transform
                    previous_world_from_local :=
                      c.previousTransform.getD c.transform
                    num_points := c.points.length },
               st.2 ++ [(c.entity, c.points)]) := by
            simp [extractStep, hv, hf, hch]
          rw [hstep]
          refine ih _ hnodup' hchange' ?_ ?_ ?_ ?_ ?_ ?_
          · intro c' hc'
            rw [findEnt_updateEnt_ne _ _ _ _ (fun h => htlne c' hc' h.symm)]
            exact horig c' (List.mem_cons_of_mem _ hc')
          · intro p hp c' hc'
            rcases List.mem_append.mp hp with hp' | hp'
            · exact hdisj p hp' c' (List.mem_cons_of_mem _ hc')
            · simp only [List.mem_singleton] at hp'
              subst hp'
              exact htlne c' hc'
          · rw [List.map_append]
            refine List.Nodup.append hpendnd (by simp) ?_
            intro x hx hx'
            simp only [List.map_cons, List.map_nil, List.mem_singleton] at hx'
            subst hx'
            rcases List.mem_map.mp hx with ⟨p, hp, hpe⟩
            exact hpendne p hp hpe.symm
          · intro e pts inst hmem hfind
            rcases List.mem_append.mp hmem with hmem' | hmem'
            · have hne : c.entity ≠ e := hpendne (e, pts) hmem'
              rw [findEnt_updateEnt_ne _ _ _ _ hne] at hfind
              exact hcnt e pts inst hmem' hfind
            · simp only [List.mem_singleton] at hmem'
              injection hmem' with h1 h2
              subst h1
              subst h2
              rw [findEnt_updateEnt_self, hf, Option.map_some'] at hfind
              injection hfind with hfind
              rw [← hfind]
          · intro e inst a hfind ha
            by_cases he : c.entity = e
            · subst he
              rw [findEnt_updateEnt_self, hf, Option.map_some'] at hfind
              injection hfind with hfind
              exact Or.inr ⟨c.points,
                List.mem_append_right _ (List.mem_singleton.mpr rfl)⟩
            · rw [findEnt_updateEnt_ne _ _ _ _ he] at hfind
              rcases hsync e inst a hfind ha with hl | ⟨pts', hm⟩
              · exact Or.inl hl
              · exact Or.inr ⟨pts', List.mem_append_left _ hm⟩
          · intro p hp
            rcases List.mem_append.mp hp with hp' | hp'
            · have hne : c.entity ≠ p.1 := hpendne p hp'
              obtain ⟨inst, hinst⟩ := hlive p hp'
              exact ⟨inst, by rw [findEnt_updateEnt_ne _ _ _ _ hne]; exact hinst⟩
            · simp only [List.mem_singleton] at hp'
              subst hp'
              exact ⟨_, by rw [findEnt_updateEnt_self, hf, Option.map_some']⟩
        · have hstep : extractStep st c =
              (updateEnt st.1 c.entity fun existing =>
                { existing with
                    world_from_local := c.transform
                    previous_world_from_local :=
                      c.previousTransform.getD c.transform
                    num_points := c.points.length },
               st.2) := by
            simp [extractStep, hv, hf, hch]
          rw [hstep]
          refine ih _ hnodup' hchange' ?_ ?_ hpendnd ?_ ?_ ?_
          · intro c' hc'
            rw [findEnt_updateEnt_ne _ _ _ _ (fun h => htlne c' hc' h.symm)]
            exact horig c' (List.mem_cons_of_mem _ hc')
          · intro p hp c' hc'
            exact hdisj p hp c' (List.mem_cons_of_mem _ hc')
          · intro e pts inst hmem hfind
            have hne : c.entity ≠ e := hpendne (e, pts) hmem
            rw [findEnt_updateEnt_ne _ _ _ _ hne] at hfind
            exact hcnt e pts inst hmem hfind
          · intro e inst a hfind ha
            by_cases he : c.entity = e
            · subst he
              rw [findEnt_updateEnt_self, hf, Option.map_some'] at hfind
              injection hfind with hfind
              left
              have hba : inst0.allocation = some a := by
                rw [← hfind] at ha
                exact ha
              have h1 : a.length = inst0.num_points :=
                hpre c.entity inst0 a hregfull hba
              have h2 : inst0.num_points = c.points.length :=
                hchange c (List.mem_cons_self _ _)
                  (by simpa using hch) inst0 hregfull
              rw [← hfind, h1, h2]
            · rw [findEnt_updateEnt_ne _ _ _ _ he] at hfind
              rcases hsync e inst a hfind ha with hl | ⟨pts', hm⟩
              · exact Or.inl hl
              · exact Or.inr ⟨pts', hm⟩
          · intro p hp
            have hne : c.entity ≠ p.1 := hpendne p hp
            obtain ⟨inst, hinst⟩ := hlive p hp
            exact ⟨inst, by rw [findEnt_updateEnt_ne _ _ _ _ hne]; exact hinst⟩
    · have hstep : extractStep st c = (removeEnt st.1 c.entity, st.2) := by
        simp only [Bool.not_eq_true] at hv
        simp [extractStep, hv]
      rw [hstep]
      refine ih _ hnodup' hchange' ?_ ?_ hpendnd ?_ ?_ ?_
      · intro c' hc'
        rw [findEnt_removeEnt_ne _ _ _ (fun h => htlne c' hc' h.symm)]
        exact horig c' (List.mem_cons_of_mem _ hc')
      · intro p hp c' hc'
        exact hdisj p hp c' (List.mem_cons_of_mem _ hc')
      · intro e pts inst hmem hfind
        exact hcnt e pts inst hmem (findEnt_removeEnt_some _ _ _ _ hfind)
      · intro e inst a hfind ha
        rcases hsync e inst a (findEnt_removeEnt_some _ _ _ _ hfind) ha with
          hl | ⟨pts', hm⟩
        · exact Or.inl hl
        · exact Or.inr ⟨pts', hm⟩
      · intro p hp
        have hne : c.entity ≠ p.1 := hpendne p hp
        obtain ⟨inst, hinst⟩ := hlive p hp
        exact ⟨inst, by rw [findEnt_removeEnt_ne _ _ _ hne]; exact hinst⟩

theorem queueViewStep_of_some (f : Phase → Phase)
    (ph : List (Entity × Phase)) (v : Entity) (p : Phase)
    (h : findEnt ph v = some p) :
    queueViewStep f ph v = updateEnt ph v f := by
  unfold queueViewStep
  rw [h]

theorem queueFold_findEnt_mem (f : Phase → Phase) (views : List Entity)
    (phases : List (Entity × Phase)) (v : Entity) (phase : Phase)
    (hnodup : views.Nodup) (hv : v ∈ views)
    (hph : findEnt phases v = some phase) :
    findEnt (views.foldl (queueViewStep f) phases) v = some (f phase) := by
  obtain ⟨w1, w2, rfl⟩ := List.append_of_mem hv
  rw [List.foldl_append, List.foldl_cons]
  have hnd := List.nodup_append.mp hnodup
  have hw1 : ∀ x ∈ w1, x ≠ v := fun x hx hxv =>
    (hnd.2.2 hx) (hxv ▸ List.mem_cons_self v w2)
  have hw2 : ∀ x ∈ w2, x ≠ v := by
    intro x hx hxv
    have := hnd.2.1
    rw [List.nodup_cons] at this
    exact this.1 (hxv ▸ hx)
  have h1 : findEnt (w1.foldl (queueViewStep f) phases) v = some phase := by
    rw [queueFold_findEnt_ne f w1 phases v hw1]
    exact hph
  rw [queueFold_findEnt_ne f w2 _ v hw2, queueViewStep_of_some f _ v phase h1,
    findEnt_updateEnt_self, h1, Option.map_some']

/-- C1 (amended): when the arena allocator cannot satisfy the request for
a drained upload, `upload_point_clouds` panics inside
`PointCloudBuffers::allocate` (`.expect("failed to allocate point
buffer")`); the frame crashes instead of skipping the object. -/
theorem upload_allocation_failure_panics (e : Entity) (points : List Vec4)
    (rest : Pending) (reg : Registry) (bufs : PointCloudBuffers)
    (inst : PointCloudInstance)
    (hfind : findEnt reg e = some inst)
    (hfail : (freeOld bufs inst).allocator.allocate points.length = none) :
    uploadPointClouds ((e, points) :: rest) reg bufs =
      .error "failed to allocate point buffer" := by
  simp only [uploadPointClouds, hfind, PointCloudBuffers.allocate, hfail]

/-- C1 (counterexample): a pending upload of five points against an arena
of capacity four makes the upload stage return the panic (`.error`),
not a skip: the claim that the stage "does not crash" fails here. -/
theorem upload_allocation_failure_cex :
    uploadPointClouds [(1, [10, 11, 12, 13, 14])]
        [(1, ⟨0, 0, 5, none⟩)]
        ⟨[0, 0, 0, 0], Allocator.new 4⟩ =
      .error "failed to allocate point buffer" := rfl

/-- C1 witness for `upload_allocation_failure_panics`. -/
theorem upload_allocation_failure_panics_witness :
    findEnt [(1, (⟨0, 0, 5, none⟩ : PointCloudInstance))] 1 =
      some ⟨0, 0, 5, none⟩ ∧
    (freeOld ⟨[0, 0, 0, 0], Allocator.new 4⟩
        ⟨0, 0, 5, none⟩).allocator.allocate
        ([10, 11, 12, 13, 14] : List Vec4).length = none ∧
    uploadPointClouds [(1, [10, 11, 12, 13, 14])]
        [(1, ⟨0, 0, 5, none⟩)] ⟨[0, 0, 0, 0], Allocator.new 4⟩ =
      .error "failed to allocate point buffer" :=
  ⟨by decide, by decide,
    upload_allocation_failure_panics 1 [10, 11, 12, 13, 14] []
      [(1, ⟨0, 0, 5, none⟩)] ⟨[0, 0, 0, 0], Allocator.new 4⟩
      ⟨0, 0, 5, none⟩ (by decide) (by decide)⟩

/-- C2 (code bug): an entity whose record holds the live allocation
`(0, 4)` becomes invisible; the reconcile pass removes its
`InstanceRecord` but the pass has no access to the arena allocator, so the
allocation is never freed: afterwards the range is still not free, even
though freeing it (which the spec prescribes) would have made it free. -/
theorem evict_leaves_allocation_live_bug :
    reconcilePass [⟨1, false, 0, none, [], false⟩]
        [(1, ⟨0, 0, 4, some ⟨0, 4⟩⟩)] []
        ⟨[0, 0, 0, 0, 0, 0, 0, 0], ⟨8, [(4, 4)]⟩⟩ =
      ([], [], ⟨[0, 0, 0, 0, 0, 0, 0, 0], ⟨8, [(4, 4)]⟩⟩) ∧
    (⟨8, [(4, 4)]⟩ : Allocator).rangeFree 0 4 = false ∧
    ((⟨8, [(4, 4)]⟩ : Allocator).free ⟨0, 4⟩).rangeFree 0 4 = true := by
  decide

/-- C4 (counterexample): `queue_point_clouds` adds the registry entity to
the view's transparent phase although its record holds no allocation (and
no per-view visibility test exists at all): the claim that such a record
produces no entry fails. -/
theorem queue_no_allocation_filter_cex :
    queuePointClouds [0] [(0, [])] [(1, ⟨0, 0, 3, none⟩)] = [(0, [1])] ∧
    (⟨0, 0, 3, none⟩ : PointCloudInstance).allocation = none := by
  decide

/-- C4 (amended): for every view that has a transparent phase,
`queue_point_clouds` appends every entity of the instance registry to that
phase, with no allocation check and no per-view visibility test;
`queue_material_point_clouds` appends exactly the registry entities that
have an extracted material instance whose asset is prepared. -/
theorem queue_adds_all_instances (views : List Entity)
    (phases : List (Entity × Phase)) (instances : Registry)
    (materialInstances : List (Entity × Nat)) (preparedMaterials : List Nat)
    (v : Entity) (phase : Phase)
    (hnodup : views.Nodup) (hv : v ∈ views)
    (hph : findEnt phases v = some phase) :
    findEnt (queuePointClouds views phases instances) v =
      some (phase ++ instances.map Prod.fst) ∧
    findEnt (queueMaterialPointClouds views phases instances
        materialInstances preparedMaterials) v =
      some (phase ++ instances.filterMap fun pr =>
        match findEnt materialInstances pr.1 with
        | none => none
        | some mid =>
          if preparedMaterials.contains mid then some pr.1 else none) := by
  constructor
  · rw [queuePointClouds_eq_foldl,
      queueFold_findEnt_mem _ views phases v phase hnodup hv hph,
      foldl_append_keys]
  · rw [queueMaterialPointClouds_eq_foldl,
      queueFold_findEnt_mem _ views phases v phase hnodup hv hph,
      foldl_material_keys]

/-- C4 witness for `queue_adds_all_instances`. -/
theorem queue_adds_all_instances_witness :
    ([0] : List Entity).Nodup ∧ (0 : Entity) ∈ [0] ∧
    findEnt [(0, ([] : Phase))] 0 = some [] ∧
    queuePointClouds [0] [(0, [])]
        [(1, ⟨0, 0, 3, none⟩), (2, ⟨0, 0, 1, some ⟨0, 1⟩⟩)] =
      [(0, [1, 2])] ∧
    queueMaterialPointClouds [0] [(0, [])]
        [(1, ⟨0, 0, 3, none⟩), (2, ⟨0, 0, 1, some ⟨0, 1⟩⟩)]
        [(1, 7)] [7] = [(0, [1])] := by
  refine ⟨by decide, by decide, by decide, ?_, ?_⟩
  · have := (queue_adds_all_instances [0] [(0, [])]
      [(1, ⟨0, 0, 3, none⟩), (2, ⟨0, 0, 1, some ⟨0, 1⟩⟩)]
      [(1, 7)] [7] 0 [] (by decide) (by decide) (by decide)).1
    revert this
    decide
  · have := (queue_adds_all_instances [0] [(0, [])]
      [(1, ⟨0, 0, 3, none⟩), (2, ⟨0, 0, 1, some ⟨0, 1⟩⟩)]
      [(1, 7)] [7] 0 [] (by decide) (by decide) (by decide)).2
    revert this
    decide

/-- C5: uploading an empty point sequence for a registered record never
errors (given any free gap at all — and after a free there always is
one): it stores a zero-length allocation, and the indirect descriptor
pushed for the record requests zero vertices, producing no draw work. -/
theorem upload_zero_points_succeeds (e : Entity) (reg : Registry)
    (bufs : PointCloudBuffers) (inst : PointCloudInstance)
    (hfind : findEnt reg e = some inst)
    (hnum : inst.num_points = 0)
    (hfree : (freeOld bufs inst).allocator.freeList ≠ []) :
    ∃ alloc bufs',
      uploadPointClouds [(e, [])] reg bufs =
        .ok (updateEnt reg e fun i => { i with allocation := some alloc },
          bufs') ∧
      alloc.length = 0 ∧
      pushIndirect [] { inst with allocation := some alloc } =
        [{ vertex_count := 0
           instance_count := 1
           first_vertex := 0
           first_instance := 0 }] := by
  obtain ⟨alloc, bufs2, hal, hlen⟩ :=
    PointCloudBuffers.allocate_nil (freeOld bufs inst) hfree
  refine ⟨alloc, bufs2, ?_, hlen, ?_⟩
  · simp only [uploadPointClouds, hfind, hal]
  · simp [pushIndirect, hnum]

/-- C5 witness for `upload_zero_points_succeeds`. -/
theorem upload_zero_points_succeeds_witness :
    findEnt [(1, (⟨0, 0, 0, none⟩ : PointCloudInstance))] 1 =
      some ⟨0, 0, 0, none⟩ ∧
    (⟨0, 0, 0, none⟩ : PointCloudInstance).num_points = 0 ∧
    (freeOld ⟨[0, 0], Allocator.new 2⟩
      ⟨0, 0, 0, none⟩).allocator.freeList ≠ [] ∧
    ∃ alloc bufs',
      uploadPointClouds [(1, [])] [(1, ⟨0, 0, 0, none⟩)]
          ⟨[0, 0], Allocator.new 2⟩ =
        .ok (updateEnt [(1, ⟨0, 0, 0, none⟩)] 1
            fun i => { i with allocation := some alloc }, bufs') ∧
      alloc.length = 0 ∧
      pushIndirect [] { (⟨0, 0, 0, none⟩ : PointCloudInstance) with
          allocation := some alloc } =
        [{ vertex_count := 0
           instance_count := 1
           first_vertex := 0
           first_instance := 0 }] :=
  ⟨by decide, by decide, by decide,
    upload_zero_points_succeeds 1 [(1, ⟨0, 0, 0, none⟩)]
      ⟨[0, 0], Allocator.new 2⟩ ⟨0, 0, 0, none⟩
      (by decide) (by decide) (by decide)⟩

/-- C7: in the indirect buffer built by a frame's `push` calls, the `i`-th
descriptor draws `num_points * 6` vertices of exactly one instance and
carries `first_instance = i`, keeping the indirect buffer and the
per-instance uniform buffer index-aligned. -/
theorem indirect_descriptor_layout (instances : List PointCloudInstance)
    (i : Nat) :
    (pushAllIndirect instances)[i]? =
      (instances[i]?).map fun inst =>
        { vertex_count := inst.num_points * 6
          instance_count := 1
          first_vertex := 0
          first_instance := i } := by
  rw [pushAllIndirect, foldl_pushIndirect]
  simpa using mkIndirectFrom_getElem instances 0 i

/-- C8: the accumulate phase clears the colour surface to zero and the
coverage surface to one, and its pipeline blends the colour target as
`dst + src` (factors one/one) and the coverage target as
`dst * (1 - srcAlpha)` (factors zero / one-minus-src-alpha). -/
theorem oit_blend_and_clear_config :
    prepareTransparentAccumulationTexture.colorClear =
      some { red := 0, green := 0, blue := 0, alpha := 0 } ∧
    prepareTransparentAccumulationTexture.alphaClear =
      some { red := 1, green := 1, blue := 1, alpha := 1 } ∧
    ∀ src dst a : ℚ,
      (pointCloudPipelineTargets.map fun t => t.color.eval src dst a) =
        [dst + src, dst * (1 - a)] ∧
      (pointCloudPipelineTargets.map fun t => t.alpha.eval src dst a) =
        [dst + src, dst * (1 - a)] := by
  refine ⟨rfl, rfl, fun src dst a => ⟨?_, ?_⟩⟩ <;>
    · simp only [pointCloudPipelineTargets, blend_add, blend_dissolve,
        BlendComponentM.eval, BlendFactorM.eval, List.map_cons, List.map_nil,
        List.cons.injEq, and_true]
      exact ⟨by ring, by ring⟩

/-- C9 (counterexample): with an empty transparent phase the node performs
no pass at all, so the accumulation surfaces keep their stale contents
`(5, 7)` instead of being cleared to `(0, 1)` as the claim states. -/
theorem empty_phase_not_cleared_cex :
    orderIndependentCopyNodeRun (fun p => p) (fun c _ t => t + c) []
        ⟨5, 7, 9⟩ = ⟨5, 7, 9⟩ ∧
    ((5 : Int) ≠ 0 ∧ (7 : Int) ≠ 1) := by decide

/-- C9 (amended): for a view whose transparent phase is empty, the
compositor node does nothing at all — it neither clears the accumulation
surfaces nor runs the accumulate or resolve passes, and the final frame
target is left exactly unchanged. -/
theorem empty_phase_node_noop (accumulateDraws : Int × Int → Int × Int)
    (resolveDraw : Int → Int → Int → Int) (st : OitViewState) :
    orderIndependentCopyNodeRun accumulateDraws resolveDraw [] st = st := rfl

/-- C10: a drained pending upload whose entity is missing from the
registry is skipped entirely: no allocation, no free, the pending data is
dropped, and the remaining uploads proceed on unchanged state. -/
theorem upload_skips_missing_entity (e : Entity) (points : List Vec4)
    (rest : Pending) (reg : Registry) (bufs : PointCloudBuffers)
    (h : findEnt reg e = none) :
    uploadPointClouds ((e, points) :: rest) reg bufs =
      uploadPointClouds rest reg bufs := by
  simp only [uploadPointClouds, h]

/-- C10 witness for `upload_skips_missing_entity`. -/
theorem upload_skips_missing_entity_witness :
    findEnt [(1, (⟨0, 0, 2, some ⟨0, 2⟩⟩ : PointCloudInstance))] 2 = none ∧
    uploadPointClouds [(2, [5, 6])]
        [(1, ⟨0, 0, 2, some ⟨0, 2⟩⟩)] ⟨[0, 0, 0, 0], Allocator.new 4⟩ =
      uploadPointClouds [] [(1, ⟨0, 0, 2, some ⟨0, 2⟩⟩)]
        ⟨[0, 0, 0, 0], Allocator.new 4⟩ :=
  ⟨by decide,
    upload_skips_missing_entity 2 [5, 6] [] [(1, ⟨0, 0, 2, some ⟨0, 2⟩⟩)]
      ⟨[0, 0, 0, 0], Allocator.new 4⟩ (by decide)⟩

theorem extractStep_self_found (st : Registry × Pending) (c : ExtractedCloud)
    (inst : PointCloudInstance) (hv : c.viewVisibility = true)
    (hf : findEnt st.1 c.entity = some inst) :
    findEnt (extractStep st c).1 c.entity =
      some { world_from_local := c.transform
             previous_world_from_local := c.previousTransform.getD c.transform
             num_points := c.points.length
             allocation := inst.allocation } ∧
    (c.changed = true → (c.entity, c.points) ∈ (extractStep st c).2) := by
  cases hch : c.changed with
  | true =>
    have hstep : extractStep st c =
        (updateEnt st.1 c.entity fun existing =>
          { existing with
              world_from_local := c.transform
              previous_world_from_local := c.previousTransform.getD c.transform
              num_points := c.points.length },
         st.2 ++ [(c.entity, c.points)]) := by
      simp [extractStep, hv, hf, hch]
    rw [hstep]
    exact ⟨by rw [findEnt_updateEnt_self, hf, Option.map_some'],
      fun _ => List.mem_append_right _ (List.mem_singleton.mpr rfl)⟩
  | false =>
    have hstep : extractStep st c =
        (updateEnt st.1 c.entity fun existing =>
          { existing with
              world_from_local := c.transform
              previous_world_from_local := c.previousTransform.getD c.transform
              num_points := c.points.length },
         st.2) := by
      simp [extractStep, hv, hf, hch]
    rw [hstep]
    exact ⟨by rw [findEnt_updateEnt_self, hf, Option.map_some'],
      fun h => absurd h (by simp [hch])⟩

theorem extractStep_self_new (st : Registry × Pending) (c : ExtractedCloud)
    (hv : c.viewVisibility = true) (hf : findEnt st.1 c.entity = none) :
    findEnt (extractStep st c).1 c.entity =
      some { world_from_local := c.transform
             previous_world_from_local := c.previousTransform.getD c.transform
             num_points := c.points.length
             allocation := none } ∧
    (c.entity, c.points) ∈ (extractStep st c).2 := by
  have hstep : extractStep st c =
      ((c.entity,
        { world_from_local := c.transform
          previous_world_from_local := c.previousTransform.getD c.transform
          num_points := c.points.length
          allocation := none }) :: st.1,
       st.2 ++ [(c.entity, c.points)]) := by
    simp [extractStep, hv, hf]
  rw [hstep]
  exact ⟨by simp [findEnt], List.mem_append_right _ (List.mem_singleton.mpr rfl)⟩

/-- C3 (counterexample): an object present in both the registry (with
stored current transform `10`) and the live set, carrying a
`PreviousGlobalTransform` component of `30` and a new transform `20`,
ends reconcile with `previous_world_from_local = 30` — the component's
value — not `10`, the record's current transform from the previous frame
as the claim states. -/
theorem reconcile_previous_transform_cex :
    (extractPointClouds [⟨1, true, 20, some 30, [], false⟩]
        [(1, ⟨10, 10, 0, none⟩)] []).1 = [(1, ⟨20, 30, 0, none⟩)] ∧
    (30 : Affine3) ≠ 10 := by decide

/-- C3 (amended): during reconcile, for an object present in both the
registry and the live set, the record's current transform is set to the
object's transform and its previous transform is set to the object's
`PreviousGlobalTransform` component value (defaulting to the object's
current transform when the component is absent) — not to the record's
stored current transform from the previous frame; `num_points` is
refreshed and the allocation kept, and when the object is flagged changed
its points are queued for upload. For a newly visible object a fresh
record is inserted with current = object transform, previous =
component-or-current, no allocation, and its points are queued for upload
that same frame. -/
theorem reconcile_transform_update (query : List ExtractedCloud)
    (registry : Registry) (pending : Pending) (c : ExtractedCloud)
    (hc : c ∈ query)
    (hnodup : (query.map ExtractedCloud.entity).Nodup)
    (hvis : c.viewVisibility = true) :
    (∀ inst, findEnt registry c.entity = some inst →
      findEnt (extractPointClouds query registry pending).1 c.entity =
        some { world_from_local := c.transform
               previous_world_from_local :=
                 c.previousTransform.getD c.transform
               num_points := c.points.length
               allocation := inst.allocation } ∧
      (c.changed = true →
        (c.entity, c.points) ∈
          (extractPointClouds query registry pending).2)) ∧
    (findEnt registry c.entity = none →
      findEnt (extractPointClouds query registry pending).1 c.entity =
        some { world_from_local := c.transform
               previous_world_from_local :=
                 c.previousTransform.getD c.transform
               num_points := c.points.length
               allocation := none } ∧
      (c.entity, c.points) ∈ (extractPointClouds query registry pending).2) := by
  obtain ⟨l1, l2, rfl⟩ := List.append_of_mem hc
  rw [List.map_append, List.map_cons] at hnodup
  have hnd := List.nodup_append.mp hnodup
  have hl1 : ∀ x ∈ l1, x.entity ≠ c.entity := fun x hx h =>
    (hnd.2.2 (List.mem_map_of_mem ExtractedCloud.entity hx))
      (h ▸ List.mem_cons_self c.entity (l2.map ExtractedCloud.entity))
  have hl2 : ∀ x ∈ l2, x.entity ≠ c.entity := by
    intro x hx h
    have := hnd.2.1
    rw [List.nodup_cons] at this
    exact this.1 (h ▸ List.mem_map_of_mem ExtractedCloud.entity hx)
  have hpq : ((l1 ++ c :: l2).any fun c' => c'.entity == c.entity) = true :=
    List.any_eq_true.mpr ⟨c, hc, by simp⟩
  have hrun : extractPointClouds (l1 ++ c :: l2) registry pending =
      l2.foldl extractStep
        (extractStep
          (l1.foldl extractStep
            (retainEnt registry fun e =>
              (l1 ++ c :: l2).any fun c' => c'.entity == e, pending))
          c) := by
    simp only [extractPointClouds]
    rw [List.foldl_append, List.foldl_cons]
  have h1 : findEnt
      (l1.foldl extractStep
        (retainEnt registry fun e =>
          (l1 ++ c :: l2).any fun c' => c'.entity == e, pending)).1
      c.entity = findEnt registry c.entity := by
    rw [extract_foldl_findEnt_ne l1 _ c.entity hl1]
    exact findEnt_retainEnt registry
      (fun e => (l1 ++ c :: l2).any fun c' => c'.entity == e) c.entity hpq
  rw [hrun]
  constructor
  · intro inst hr
    have hfound := extractStep_self_found _ c inst hvis (by rw [h1]; exact hr)
    constructor
    · rw [extract_foldl_findEnt_ne l2 _ c.entity hl2]
      exact hfound.1
    · intro hch
      obtain ⟨t, ht⟩ := extract_foldl_pending_mono l2 (extractStep _ c)
      rw [ht]
      exact List.mem_append_left _ (hfound.2 hch)
  · intro hr
    have hnew := extractStep_self_new _ c hvis (by rw [h1]; exact hr)
    constructor
    · rw [extract_foldl_findEnt_ne l2 _ c.entity hl2]
      exact hnew.1
    · obtain ⟨t, ht⟩ := extract_foldl_pending_mono l2 (extractStep _ c)
      rw [ht]
      exact List.mem_append_left _ hnew.2

/-- C3 witness for `reconcile_transform_update`. -/
theorem reconcile_transform_update_witness :
    ((⟨1, true, 20, some 30, [], false⟩ : ExtractedCloud) ∈
      ([⟨1, true, 20, some 30, [], false⟩] : List ExtractedCloud)) ∧
    (([⟨1, true, 20, some 30, [], false⟩] :
        List ExtractedCloud).map ExtractedCloud.entity).Nodup ∧
    (⟨1, true, 20, some 30, [], false⟩ : ExtractedCloud).viewVisibility =
      true ∧
    findEnt (extractPointClouds [⟨1, true, 20, some 30, [], false⟩]
        [(1, ⟨10, 10, 0, none⟩)] []).1 1 = some ⟨20, 30, 0, none⟩ := by
  refine ⟨by decide, by decide, by decide, ?_⟩
  have h := ((reconcile_transform_update [⟨1, true, 20, some 30, [], false⟩]
      [(1, ⟨10, 10, 0, none⟩)] [] ⟨1, true, 20, some 30, [], false⟩
      (by decide) (by decide) (by decide)).1 ⟨10, 10, 0, none⟩
      (by decide)).1
  simpa using h

theorem extractPointClouds_invariants (query : List ExtractedCloud)
    (registry reg' : Registry) (pend : Pending)
    (hnodup : (query.map ExtractedCloud.entity).Nodup)
    (hchange : ∀ c ∈ query, c.changed = false →
      ∀ inst, findEnt registry c.entity = some inst →
        inst.num_points = c.points.length)
    (hpre : ∀ e inst a, findEnt registry e = some inst →
      inst.allocation = some a → a.length = inst.num_points)
    (hext : extractPointClouds query registry [] = (reg', pend)) :
    (pend.map Prod.fst).Nodup ∧ PendCountOk pend reg' ∧
      AllocSyncOk pend reg' ∧
      ∀ p ∈ pend, ∃ inst, findEnt reg' p.1 = some inst := by
  have horig0 : ∀ c ∈ query,
      findEnt (retainEnt registry fun e =>
        query.any fun c' => c'.entity == e) c.entity =
      findEnt registry c.entity := by
    intro c hc
    exact findEnt_retainEnt registry
      (fun e => query.any fun c' => c'.entity == e) c.entity
      (List.any_eq_true.mpr ⟨c, hc, by simp⟩)
  have hsync0 : AllocSyncOk []
      (retainEnt registry fun e => query.any fun c' => c'.entity == e) := by
    intro e inst a hfind ha
    exact Or.inl (hpre e inst a (findEnt_retainEnt_some _ _ _ _ hfind) ha)
  have hmain := extract_loop_invariant registry query
    (retainEnt registry fun e => query.any fun c' => c'.entity == e, [])
    hnodup hchange hpre horig0
    (fun p hp => absurd hp (List.not_mem_nil _)) (by simp)
    (fun e pts inst hmem => absurd hmem (List.not_mem_nil _)) hsync0
    (fun p hp => absurd hp (List.not_mem_nil _))
  have hfold : query.foldl extractStep
      (retainEnt registry fun e => query.any fun c' => c'.entity == e, []) =
      (reg', pend) := hext
  rw [hfold] at hmain
  exact hmain

/-- C6: after a frame's reconcile (with a fresh pending queue) and a
successful upload pass, (a) every record whose entity had an upload
queued this frame holds a fresh allocation sized exactly to the queued
point count — its old allocation having been freed and replaced — and
(b) every record holding an allocation satisfies
`allocation.length = num_points`. Hypotheses: query entities are unique,
the pre-frame registry already satisfied the invariant, and Bevy change
detection is sound (an unchanged component has the point count the
registry recorded). -/
theorem upload_allocation_length_invariant (query : List ExtractedCloud)
    (registry reg' regF : Registry) (pend : Pending)
    (bufs bufsF : PointCloudBuffers)
    (hnodup : (query.map ExtractedCloud.entity).Nodup)
    (hpre : ∀ e inst a, findEnt registry e = some inst →
      inst.allocation = some a → a.length = inst.num_points)
    (hchange : ∀ c ∈ query, c.changed = false →
      ∀ inst, findEnt registry c.entity = some inst →
        inst.num_points = c.points.length)
    (hext : extractPointClouds query registry [] = (reg', pend))
    (hup : uploadPointClouds pend reg' bufs = .ok (regF, bufsF)) :
    (∀ e pts inst, (e, pts) ∈ pend → findEnt reg' e = some inst →
      ∃ alloc, findEnt regF e =
          some { inst with allocation := some alloc } ∧
        alloc.length = pts.length) ∧
    ∀ e inst a, findEnt regF e = some inst → inst.allocation = some a →
      a.length = inst.num_points := by
  obtain ⟨hnd, hcnt, hsync, _⟩ :=
    extractPointClouds_invariants query registry reg' pend hnodup hchange
      hpre hext
  exact ⟨uploadPointClouds_pending_fresh pend reg' bufs regF bufsF hup hnd,
    uploadPointClouds_alloc_length pend reg' bufs regF bufsF hup hcnt hsync⟩

/-- C6 witness for `upload_allocation_length_invariant`. -/
theorem upload_allocation_length_invariant_witness :
    (([⟨1, true, 5, none, [7, 8, 9], true⟩] :
        List ExtractedCloud).map ExtractedCloud.entity).Nodup ∧
    extractPointClouds [⟨1, true, 5, none, [7, 8, 9], true⟩]
        [(1, ⟨0, 0, 2, some ⟨0, 2⟩⟩)] [] =
      ([(1, ⟨5, 5, 3, some ⟨0, 2⟩⟩)], [(1, [7, 8, 9])]) ∧
    uploadPointClouds [(1, [7, 8, 9])] [(1, ⟨5, 5, 3, some ⟨0, 2⟩⟩)]
        ⟨[0, 0, 0, 0], ⟨4, [(2, 2)]⟩⟩ =
      .ok ([(1, ⟨5, 5, 3, some ⟨0, 3⟩⟩)], ⟨[7, 8, 9, 0], ⟨4, [(3, 1)]⟩⟩) ∧
    ∀ e inst a,
      findEnt [(1, (⟨5, 5, 3, some ⟨0, 3⟩⟩ : PointCloudInstance))] e =
        some inst →
      inst.allocation = some a → a.length = inst.num_points := by
  refine ⟨by decide, by decide, by rfl, ?_⟩
  refine (upload_allocation_length_invariant
    [⟨1, true, 5, none, [7, 8, 9], true⟩]
    [(1, ⟨0, 0, 2, some ⟨0, 2⟩⟩)] [(1, ⟨5, 5, 3, some ⟨0, 2⟩⟩)]
    [(1, ⟨5, 5, 3, some ⟨0, 3⟩⟩)] [(1, [7, 8, 9])]
    ⟨[0, 0, 0, 0], ⟨4, [(2, 2)]⟩⟩ ⟨[7, 8, 9, 0], ⟨4, [(3, 1)]⟩⟩
    (by decide) ?_ ?_ (by decide) (by rfl)).2
  · intro e inst a h1 h2
    simp only [findEnt] at h1
    split at h1
    · injection h1 with h1
      subst h1
      have h2' : some (⟨0, 2⟩ : Allocation) = some a := h2
      injection h2' with h2'
      rw [← h2']
    · exact absurd h1 (by simp)
  · intro c hc hch inst
    simp only [List.mem_singleton] at hc
    subst hc
    exact absurd hch (by decide)

/-- C5 (counterexample): against a fully exhausted arena (empty free
list), uploading a zero-point object for a record with no prior
allocation to free panics — the allocator finds no gap even for a
zero-length request, so "never fails" does not hold unconditionally. -/
theorem upload_zero_points_exhausted_cex :
    uploadPointClouds [(1, [])] [(1, ⟨0, 0, 0, none⟩)]
        ⟨[0, 0, 0, 0], ⟨4, []⟩⟩ =
      .error "failed to allocate point buffer" := rfl
